import Mathlib

/-
Formal model of the WarframeMarketer ingestion / reconciliation / analysis
pipeline, embedded shallowly in Lean 4.

Each definition below is a direct translation of one Python function of the
repository (src/database/operations.py, src/utils/market_analysis.py,
src/api/warframe_market_client.py, src/models/order_collection.py).
Database tables are modelled as lists of rows, timestamps as rationals
(measured in days), prices and quantities as integers or rationals exactly
as the source treats them.  SQL statements are translated by their
documented semantics (UPDATE ... WHERE, INSERT ... ON CONFLICT).
-/

namespace WarframeMarketer

/-- Market side enum (`market_side` in the schema): `'buy'` or `'sell'`.
In `analyze_market_data` the Python code tests `side == 'buy'` and treats
every other value as sell, which the two-constructor enum models exactly. -/
inductive Side
  | buy
  | sell
deriving DecidableEq, Repr

/-- Python `int(q)`: truncation toward zero of a rational. -/
def pyInt (q : ℚ) : ℤ :=
  if 0 ≤ q then ⌊q⌋ else ⌈q⌉

/-- Arithmetic mean of a list, `statistics.mean` / `sum(l)/len(l)`.
On the empty list this is `0 / 0 = 0` in `ℚ`; every call site in the
source guards against the empty list. -/
def listMean (xs : List ℚ) : ℚ :=
  xs.sum / (xs.length : ℚ)

/-- Population variance of a list (divisor `n`), the square of the
standard deviation used by `scipy.stats.zscore` (which defaults to
`ddof = 0`). -/
def pvariance (xs : List ℚ) : ℚ :=
  ((xs.map (fun x => (x - listMean xs) ^ 2)).sum) / (xs.length : ℚ)

/-- Sample variance of a list (divisor `n - 1`), the square of
`statistics.stdev`.  Only called on lists of length ≥ 2. -/
def svariance (xs : List ℚ) : ℚ :=
  ((xs.map (fun x => (x - listMean xs) ^ 2)).sum) / ((xs.length : ℚ) - 1)

/-- `detect_outliers(prices, threshold)` from src/utils/market_analysis.py.

The source returns `[]` on empty input and otherwise
`[abs(z) > threshold for z in stats.zscore(prices)]` where
`z_i = (x_i - mean) / sigma` with `sigma` the population standard
deviation.  We model the comparison on the z-score without leaving `ℚ`:
for `sigma > 0` (i.e. `pvariance > 0`),
`|z_i| > t  ↔  t < 0 ∨ t² · pvariance < (x_i - mean)²`,
and for `sigma = 0` scipy produces `NaN` z-scores whose comparisons are
all `False`, captured by the `0 < v` conjunct.  The theorem
`detect_outliers_iff_zscore` below proves this squared form equivalent to
the real-valued z-score comparison. -/
def detect_outliers (prices : List ℚ) (threshold : ℚ) : List Bool :=
  if prices = [] then []
  else
    let m := listMean prices
    let v := pvariance prices
    prices.map (fun x =>
      decide (0 < v ∧ (threshold < 0 ∨ threshold ^ 2 * v < (x - m) ^ 2)))

/-- `calculate_trimmed_mean(values, trim_percent)` from
src/utils/market_analysis.py: return 0 on empty input; plain mean for
fewer than 3 values; otherwise sort, compute
`trim_count = int(len * trim_percent / 100)` (truncating), slice
`sorted[trim_count : len - trim_count]` when `trim_count > 0`, and
average the remainder (0 if the slice is empty). -/
def calculate_trimmed_mean (values : List ℚ) (trim_percent : ℚ) : ℚ :=
  if values = [] then 0
  else if values.length < 3 then values.sum / (values.length : ℚ)
  else
    let sorted_values := values.insertionSort (fun a b => a ≤ b)
    let trim_count : ℤ := pyInt ((values.length : ℚ) * trim_percent / 100)
    let trimmed_values :=
      if 0 < trim_count then
        (sorted_values.drop trim_count.toNat).take
          (sorted_values.length - 2 * trim_count.toNat)
      else sorted_values
    if trimmed_values = [] then 0
    else trimmed_values.sum / (trimmed_values.length : ℚ)

/-- `order_status` enum of the schema. -/
inductive OrderStatus
  | active
  | fulfilled
  | dead
deriving DecidableEq, Repr

/-- `listing_type` enum of the schema. -/
inductive ListingType
  | isNew
  | relist
deriving DecidableEq, Repr

/-- One row of the `order_history` table.  Prices are integers because
`process_order` stores `int(order['platinum'])`; timestamps are rationals
measured in days; `visibility_duration` is `none` for the `NULL` the
INSERT leaves behind.  The SERIAL primary key is omitted: `order_id` is
`UNIQUE`, and every statement of `process_order` addresses rows through
`order_id` (the UPDATE uses the id fetched by the `order_id` lookup). -/
structure OrderRecord where
  item_id : ℕ
  user_id : String
  order_id : String
  initial_price : ℤ
  final_price : ℤ
  quantity : ℤ
  side : Side
  first_seen : ℚ
  last_seen : ℚ
  status : OrderStatus
  visibility_duration : Option ℚ
  price_changes : ℕ
  listing_type : ListingType
deriving DecidableEq, Repr

/-- One listing from an order-book snapshot as `process_order` reads it:
`order['id']`, `order['user']['id']`, `order['platinum']`,
`order['quantity']`, `order['order_type']`, and the already parsed
`last_seen` timestamp. -/
structure OrderSnapshot where
  order_id : String
  user_id : String
  platinum : ℚ
  quantity : ℤ
  order_type : Side
  last_seen : ℚ
deriving DecidableEq, Repr

/-- One row of the `item_prices` table,
`UNIQUE(item_id, recorded_at, price, side)`. -/
structure PriceRow where
  item_id : ℕ
  recorded_at : ℚ
  price : ℚ
  quantity : ℤ
  side : Side
deriving DecidableEq, Repr

/-- The `UNIQUE(item_id, recorded_at, price, side)` conflict key of
`item_prices`. -/
def samePriceKey (r : PriceRow) (item_id : ℕ) (recorded_at price : ℚ)
    (side : Side) : Bool :=
  decide (r.item_id = item_id ∧ r.recorded_at = recorded_at ∧
    r.price = price ∧ r.side = side)

/-- `insert_price` from src/database/operations.py:
`INSERT INTO item_prices ... ON CONFLICT (item_id, recorded_at, price, side)
DO NOTHING` — when a row with the key already exists the statement does
nothing (the new quantity is discarded); otherwise a fresh row is added. -/
def insert_price (prices : List PriceRow) (item_id : ℕ) (price : ℚ)
    (quantity : ℤ) (side : Side) (recorded_at : ℚ) : List PriceRow :=
  if prices.any (fun r => samePriceKey r item_id recorded_at price side) then
    prices
  else prices ++ [⟨item_id, recorded_at, price, quantity, side⟩]

/-- The inline `item_prices` INSERT of `process_order`
(src/database/operations.py, also src/main.py): `ON CONFLICT ... DO UPDATE
SET quantity = item_prices.quantity + EXCLUDED.quantity` — on a key
conflict the existing row's quantity grows by the inserted quantity. -/
def process_order_insert_price (prices : List PriceRow) (item_id : ℕ)
    (recorded_at price : ℚ) (quantity : ℤ) (side : Side) : List PriceRow :=
  if prices.any (fun r => samePriceKey r item_id recorded_at price side) then
    prices.map (fun r =>
      if samePriceKey r item_id recorded_at price side then
        { r with quantity := r.quantity + quantity }
      else r)
  else prices ++ [⟨item_id, recorded_at, price, quantity, side⟩]

/-- `process_order(wf_id, order, client)` from src/database/operations.py
(the identical method also appears in src/main.py).  It looks up
`order_history` by `order_id`.

If a row exists it recomputes `price_changes`: the source compares
`current_price != initial_price` (the *initial* price, not the stored
final price) and, when they differ, stores `price_changes + 1`; it then
updates `final_price`, `last_seen`, `price_changes` and
`visibility_duration = last_seen - first_seen`.

If no row exists it inserts a new one with
`initial_price = final_price = current_price`,
`first_seen = last_seen = last_seen`, default `status = 'active'`,
default `price_changes = 0`, and
`listing_type = CASE WHEN order_id IN (SELECT order_id FROM order_history
WHERE user_id = ... AND item_id = ...) THEN 'relist' ELSE 'new' END`
(the membership test is on the incoming order's own `order_id`); it then
runs the quantity-merging `item_prices` insert. -/
def process_order (wf_id : ℕ) (order : OrderSnapshot)
    (history : List OrderRecord) (prices : List PriceRow) :
    List OrderRecord × List PriceRow :=
  let current_price : ℤ := pyInt order.platinum
  let last_seen := order.last_seen
  if history.any (fun r => r.order_id == order.order_id) then
    (history.map (fun r =>
      if r.order_id == order.order_id then
        { r with
          final_price := current_price
          last_seen := last_seen
          price_changes :=
            if current_price ≠ r.initial_price then r.price_changes + 1
            else r.price_changes
          visibility_duration := some (last_seen - r.first_seen) }
      else r), prices)
  else
    let lt :=
      if history.any (fun r =>
          r.user_id == order.user_id && r.item_id == wf_id &&
          r.order_id == order.order_id) then
        ListingType.relist
      else ListingType.isNew
    (history ++ [{
        item_id := wf_id
        user_id := order.user_id
        order_id := order.order_id
        initial_price := current_price
        final_price := current_price
        quantity := order.quantity
        side := order.order_type
        first_seen := last_seen
        last_seen := last_seen
        status := OrderStatus.active
        visibility_duration := none
        price_changes := 0
        listing_type := lt }],
     process_order_insert_price prices wf_id last_seen (current_price : ℚ)
       order.quantity order.order_type)

/-- The snapshot-ingestion loop of `process_single_warframe`: feed each
listing of an order-book snapshot to `process_order` in turn, starting
from given table states. -/
def process_orders_from (wf_id : ℕ) (orders : List OrderSnapshot)
    (st : List OrderRecord × List PriceRow) :
    List OrderRecord × List PriceRow :=
  orders.foldl (fun st o => process_order wf_id o st.1 st.2) st

/-- `process_orders_from` started on empty tables. -/
def process_orders (wf_id : ℕ) (orders : List OrderSnapshot) :
    List OrderRecord × List PriceRow :=
  process_orders_from wf_id orders ([], [])

/-- `update_order_status` from src/database/operations.py:
`UPDATE order_history SET status = 'dead' WHERE last_seen < now - 30 days
AND status = 'active'`.  `now` is passed explicitly
(`datetime.now(timezone.utc)` in the source); 30 days is the literal
`timedelta(days=30)` with timestamps measured in days. -/
def update_order_status (now : ℚ) (history : List OrderRecord) :
    List OrderRecord :=
  history.map (fun r =>
    if r.last_seen < now - 30 ∧ r.status = OrderStatus.active then
      { r with status := OrderStatus.dead }
    else r)

/-- `OrderEntry` dataclass from src/models/order_collection.py. -/
structure OrderEntry where
  price : ℤ
  quantity : ℤ
  order_type : Side
deriving DecidableEq, Repr

/-- `OrderCollection` from src/models/order_collection.py: per side a
`defaultdict` mapping price → `OrderEntry`, modelled as an association
list of `(price, accumulated quantity)` in key-insertion order (Python
dicts iterate in insertion order).  The default factory's placeholder
`OrderEntry(0, 0, side)` carries quantity 0, so a key's entry appears the
moment the key is first accessed. -/
structure OrderCollection where
  buy : List (ℤ × ℤ)
  sell : List (ℤ × ℤ)
deriving DecidableEq, Repr

/-- The fresh collection built by `OrderCollection.__init__` (and by
`clear`). -/
def OrderCollection.empty : OrderCollection :=
  ⟨[], []⟩

/-- `self.orders[order_type][price]` followed by
`existing_order.quantity += quantity`: the defaultdict lookup creates a
quantity-0 entry for a missing key (so the stored quantity becomes
`0 + quantity`), and an existing key's entry is mutated in place. -/
def addToBucket (m : List (ℤ × ℤ)) (price quantity : ℤ) : List (ℤ × ℤ) :=
  if m.any (fun e => e.1 == price) then
    m.map (fun e => if e.1 == price then (e.1, e.2 + quantity) else e)
  else m ++ [(price, quantity)]

/-- `OrderCollection.add_order(price, quantity, order_type)`. -/
def OrderCollection.add_order (c : OrderCollection) (price quantity : ℤ)
    (order_type : Side) : OrderCollection :=
  match order_type with
  | Side.buy => { c with buy := addToBucket c.buy price quantity }
  | Side.sell => { c with sell := addToBucket c.sell price quantity }

/-- `OrderCollection.get_all_orders`: walk the `'buy'` bucket then the
`'sell'` bucket (dict insertion order) and keep exactly the entries with
`quantity > 0`, rebuilding each `OrderEntry` from the dict key and the
accumulated quantity. -/
def OrderCollection.get_all_orders (c : OrderCollection) : List OrderEntry :=
  (c.buy.filter (fun e => 0 < e.2)).map (fun e => ⟨e.1, e.2, Side.buy⟩) ++
    (c.sell.filter (fun e => 0 < e.2)).map (fun e => ⟨e.1, e.2, Side.sell⟩)

/-- One `add_order` call, for replaying call sequences. -/
structure AddOp where
  price : ℤ
  quantity : ℤ
  order_type : Side
deriving DecidableEq, Repr

/-- Replay a sequence of `add_order` calls on a collection. -/
def applyOrders (ops : List AddOp) (c : OrderCollection) : OrderCollection :=
  ops.foldl (fun c o => c.add_order o.price o.quantity o.order_type) c

/-- Total quantity added by a call sequence for one `(order_type, price)`
key. -/
def sumAdds (ops : List AddOp) (ty : Side) (price : ℤ) : ℤ :=
  ((ops.filter (fun o => o.order_type = ty ∧ o.price = price)).map
    (fun o => o.quantity)).sum

/-- The total quantity an association-list bucket stores under one
price key (sum over every entry with that key; with distinct keys this
is the single entry's quantity). -/
def bucketQty (m : List (ℤ × ℤ)) (p : ℤ) : ℤ :=
  ((m.filter (fun e => decide (e.1 = p))).map (fun e => e.2)).sum

/-- `self.orders[order_type]`. -/
def sideBucket (c : OrderCollection) : Side → List (ℤ × ℤ)
  | Side.buy => c.buy
  | Side.sell => c.sell

/-- What the HTTP server answers to one attempt of
`WarframeMarketClient.make_request`: a decodable 2xx body, HTTP 429, or a
transport-level `aiohttp.ClientError` (raised by the request itself or by
`raise_for_status`). -/
inductive HttpResponse
  | ok
  | tooManyRequests
  | transportError
deriving DecidableEq, Repr

/-- How `make_request` terminates: returns the JSON body, raises the
`ClientResponseError` built after exhausting retries on HTTP 429
("Max retries reached"), or re-raises the last transport error. -/
inductive RequestOutcome
  | success
  | rateLimitExceeded
  | transportFailure
deriving DecidableEq, Repr

/-- Observable behaviour of one `make_request(url)` call: the outcome,
the list of `asyncio.sleep` durations in order, and how many HTTP
requests were issued. -/
structure RequestTrace where
  outcome : RequestOutcome
  sleeps : List ℚ
  attempts : ℕ
deriving DecidableEq, Repr

/-- `make_request(url, retries)` from src/api/warframe_market_client.py,
with the environment abstracted as `responses : ℕ → HttpResponse` giving
the server's answer to the attempt with retry counter `n`.  The source
recursion `if retries < self.max_retries: sleep(retry_delay * (retries + 1));
return await self.make_request(url, retries + 1)` is driven here by
`remaining = max_retries - retries`, which decreases by one per retry;
both HTTP 429 and transport errors follow the same backoff, differing
only in the final error after `max_retries` is exhausted. -/
def make_request_from (responses : ℕ → HttpResponse) (retry_delay : ℚ) :
    ℕ → ℕ → RequestTrace
  | 0, retries =>
    match responses retries with
    | HttpResponse.ok => ⟨RequestOutcome.success, [], 1⟩
    | HttpResponse.tooManyRequests => ⟨RequestOutcome.rateLimitExceeded, [], 1⟩
    | HttpResponse.transportError => ⟨RequestOutcome.transportFailure, [], 1⟩
  | n + 1, retries =>
    match responses retries with
    | HttpResponse.ok => ⟨RequestOutcome.success, [], 1⟩
    | HttpResponse.tooManyRequests =>
        let t := make_request_from responses retry_delay n (retries + 1)
        ⟨t.outcome, retry_delay * ((retries : ℚ) + 1) :: t.sleeps, t.attempts + 1⟩
    | HttpResponse.transportError =>
        let t := make_request_from responses retry_delay n (retries + 1)
        ⟨t.outcome, retry_delay * ((retries : ℚ) + 1) :: t.sleeps, t.attempts + 1⟩

/-- A top-level `make_request(url)` call (`retries = 0`); the client
defaults are `max_retries = 3`, `retry_delay = 1.0`. -/
def make_request (responses : ℕ → HttpResponse) (max_retries : ℕ)
    (retry_delay : ℚ) : RequestTrace :=
  make_request_from responses retry_delay max_retries 0

/-- `TimeRange` from src/models/data_models.py as consumed by
`analyze_market_data`. -/
inductive TimeRange
  | week
  | month
  | three_months
  | six_months
  | all_time
deriving DecidableEq, Repr

/-- `datetime.min` as a day count relative to the Unix epoch:
`date(1, 1, 1)` is proleptic ordinal 1 and `date(1970, 1, 1)` is ordinal
719163, so `datetime.min` sits 719162 days before the epoch.  Every real
timestamp in the store is far above it, so the `ALL_TIME` window filter
keeps everything, exactly as in the source. -/
def datetimeMin : ℚ :=
  -719162

/-- The `start_date` computed at the top of `analyze_market_data`:
`now - 7/30/90/180 days`, or `datetime.min` for `ALL_TIME`. -/
def time_range_start (now : ℚ) : TimeRange → ℚ
  | TimeRange.week => now - 7
  | TimeRange.month => now - 30
  | TimeRange.three_months => now - 90
  | TimeRange.six_months => now - 180
  | TimeRange.all_time => datetimeMin

/-- `timestamp.date()` for a timestamp measured in days: the calendar day
containing it. -/
def rowDate (r : PriceRow) : ℤ :=
  ⌊r.recorded_at⌋

/-- `timestamp.hour`: the hour-of-day 0..23 of a timestamp measured in
days. -/
def rowHour (r : PriceRow) : ℕ :=
  (⌊(r.recorded_at - (⌊r.recorded_at⌋ : ℚ)) * 24⌋).toNat

/-- `timestamp.strftime('%A')` up to the bijection between weekday names
and weekday indices: day 0 of the epoch (1970-01-01) was a Thursday, so
index 0 stands for Thursday, 1 for Friday, and so on.  Grouping by index
is identical to grouping by name. -/
def rowWeekday (r : PriceRow) : ℕ :=
  (rowDate r % 7).toNat

/-- Keys of a Python dict built by repeated indexing, in insertion order:
first occurrence of each value, later duplicates dropped. -/
def firstDedupAux {α : Type} [DecidableEq α] (seen : List α) :
    List α → List α
  | [] => []
  | a :: l =>
    if a ∈ seen then firstDedupAux seen l
    else a :: firstDedupAux (a :: seen) l

/-- Insertion-ordered key list of a dict (see `firstDedupAux`). -/
def firstDedup {α : Type} [DecidableEq α] (l : List α) : List α :=
  firstDedupAux [] l

/-- The rows the analysis query returns:
`SELECT price, quantity, side, recorded_at FROM item_prices WHERE
item_id = %s AND recorded_at >= %s ORDER BY recorded_at ASC`, modelled as
a stable sort of the filtered table. -/
def windowRecords (rows : List PriceRow) (item_id : ℕ) (start : ℚ) :
    List PriceRow :=
  (rows.filter (fun r => decide (r.item_id = item_id ∧ start ≤ r.recorded_at))).insertionSort
    (fun a b => a.recorded_at ≤ b.recorded_at)

/-- `[p for p, _ in buy_orders[day_date]]`: the buy prices recorded on
one day, in record order. -/
def dayBuyPrices (records : List PriceRow) (d : ℤ) : List ℚ :=
  (records.filter (fun r => decide (rowDate r = d ∧ r.side = Side.buy))).map
    (fun r => r.price)

/-- The sell prices recorded on one day, in record order (the source's
`else` branch groups every non-buy side here). -/
def daySellPrices (records : List PriceRow) (d : ℤ) : List ℚ :=
  (records.filter (fun r => decide (rowDate r = d ∧ ¬r.side = Side.buy))).map
    (fun r => r.price)

/-- `all_prices = buy_prices + sell_prices` for one day. -/
def dayAllPrices (records : List PriceRow) (d : ℤ) : List ℚ :=
  dayBuyPrices records d ++ daySellPrices records d

/-- `sum(q for _, q in buy_orders[day_date] + sell_orders[day_date])`. -/
def dayVolume (records : List PriceRow) (d : ℤ) : ℤ :=
  ((records.filter (fun r => decide (rowDate r = d))).map
    (fun r => r.quantity)).sum

/-- `min(items, key=f)` over a nonempty key list: scan left to right and
replace the champion only on a strictly smaller key, so the first
occurrence of the minimal key wins, as Python's `min` guarantees. -/
def argminBy (f : ℕ → ℚ) : List ℕ → ℕ
  | [] => 0
  | a :: l => l.foldl (fun best h => if f h < f best then h else best) a

/-- `max(items, key=f)`: first occurrence of the maximal key wins. -/
def argmaxBy (f : ℕ → ℚ) : List ℕ → ℕ
  | [] => 0
  | a :: l => l.foldl (fun best h => if f best < f h then h else best) a

/-- `f"{hour:02d}:00 UTC"`. -/
def hourLabel (h : ℕ) : String :=
  (if h < 10 then "0" ++ toString h else toString h) ++ ":00 UTC"

/-- `MarketTrend` from src/models/data_models.py.  The source stores
`volatility = statistics.stdev(all_prices)` as a float; to stay in `ℚ`
the model stores its square `volatilitySq` (the sample variance,
divisor `n - 1`) — the code's volatility is `Real.sqrt volatilitySq`,
and all statements about it go through that square root.  `timestamp`
holds the day (`datetime.combine(day_date, midnight)`). -/
structure MarketTrend where
  avg_price : ℚ
  min_price : ℚ
  max_price : ℚ
  volatilitySq : ℚ
  volume : ℤ
  market_spread : ℚ
  best_buy_price : ℚ
  best_sell_price : ℚ
  timestamp : ℤ
deriving DecidableEq, Repr

/-- `MarketAnalysis` from src/models/data_models.py; like `MarketTrend`,
the analysis-level `price_volatility` is stored squared.
`seasonal_patterns` maps weekday indices (see `rowWeekday`) to mean
prices in dict insertion order. -/
structure MarketAnalysis where
  price_trends : List MarketTrend
  avg_daily_volume : ℚ
  price_volatilitySq : ℚ
  market_spread_trend : List ℚ
  best_buy_time : String
  best_sell_time : String
  demand_strength : ℚ
  seasonal_patterns : List (ℕ × ℚ)
deriving DecidableEq, Repr

/-- The `MarketTrend(...)` constructed for one day inside
`analyze_market_data`'s per-day loop, for the `all_prices` nonempty case
(the guards `if all_prices else 0` inside the constructor are kept). -/
def mkMarketTrend (records : List PriceRow) (d : ℤ) : MarketTrend :=
  let buy_prices := dayBuyPrices records d
  let sell_prices := daySellPrices records d
  let all_prices := dayAllPrices records d
  { avg_price := if all_prices = [] then 0 else listMean all_prices
    min_price := (all_prices.min?).getD 0
    max_price := (all_prices.max?).getD 0
    volatilitySq := if 1 < all_prices.length then svariance all_prices else 0
    volume := dayVolume records d
    market_spread :=
      if buy_prices ≠ [] ∧ sell_prices ≠ [] then
        listMean sell_prices - listMean buy_prices
      else 0
    best_buy_price := (buy_prices.max?).getD 0
    best_sell_price := (sell_prices.min?).getD 0
    timestamp := d }

/-- `sorted(set(buy_orders.keys()) | set(sell_orders.keys()))`: the
distinct days carrying data, ascending.  Every record contributes its
date to one of the two key sets, so this is the sorted dedup of all
record dates. -/
def analysisDays (records : List PriceRow) : List ℤ :=
  ((records.map rowDate).dedup).insertionSort (fun a b => a ≤ b)

/-- The per-day trend loop of `analyze_market_data`: for each day, if
`all_prices` is nonempty, append the day's `MarketTrend`. -/
def analysisTrends (records : List PriceRow) : List MarketTrend :=
  (analysisDays records).filterMap (fun d =>
    if dayAllPrices records d = [] then none
    else some (mkMarketTrend records d))

/-- `analyze_market_data(item_id, time_range)` from
src/utils/market_analysis.py, with the table contents and the window
start passed explicitly (`analyze_market_data_range` below applies the
`TimeRange`-to-`start_date` mapping).  Empty query result ⇒ `None`.
Otherwise: per-day `MarketTrend`s over the sorted distinct days,
`market_spread_trend` collected alongside, best buy/sell hour by
mean price over per-hour buckets (dict insertion order, first minimum /
maximum wins), seasonal patterns by weekday, demand strength
`total_buy / total_sell` (0 when no sell volume), mean daily volume, and
the analysis-level volatility (squared here) of the daily average prices.
The per-day loop only appends a trend when `all_prices` is nonempty. -/
def analyze_market_data (rows : List PriceRow) (item_id : ℕ) (start : ℚ) :
    Option MarketAnalysis :=
  let records := windowRecords rows item_id start
  if records = [] then none
  else
    let price_trends := analysisTrends records
    let hourBucket := fun h =>
      (records.filter (fun r => decide (rowHour r = h))).map (fun r => r.price)
    let hours := firstDedup (records.map rowHour)
    let weekdayBucket := fun w =>
      (records.filter (fun r => decide (rowWeekday r = w))).map (fun r => r.price)
    let total_buy_volume :=
      ((records.filter (fun r => r.side == Side.buy)).map (fun r => r.quantity)).sum
    let total_sell_volume :=
      ((records.filter (fun r => !(r.side == Side.buy))).map (fun r => r.quantity)).sum
    some
      { price_trends := price_trends
        avg_daily_volume :=
          listMean ((firstDedup (records.map rowDate)).map
            (fun d => (dayVolume records d : ℚ)))
        price_volatilitySq :=
          if 1 < price_trends.length then
            svariance (price_trends.map (fun t => t.avg_price))
          else 0
        market_spread_trend := price_trends.map (fun t => t.market_spread)
        best_buy_time := hourLabel (argminBy (fun h => listMean (hourBucket h)) hours)
        best_sell_time := hourLabel (argmaxBy (fun h => listMean (hourBucket h)) hours)
        demand_strength :=
          if 0 < total_sell_volume then
            (total_buy_volume : ℚ) / (total_sell_volume : ℚ)
          else 0
        seasonal_patterns :=
          (firstDedup (records.map rowWeekday)).map
            (fun w => (w, listMean (weekdayBucket w))) }

/-- `analyze_market_data` as called with a `TimeRange`, reading the clock
to fix the window start. -/
def analyze_market_data_range (rows : List PriceRow) (item_id : ℕ)
    (now : ℚ) (tr : TimeRange) : Option MarketAnalysis :=
  analyze_market_data rows item_id (time_range_start now tr)

/-- A buy-side price sample at day 0 (timestamp 0.1), price 10. -/
def demoBuyRow : PriceRow := ⟨1, 1/10, 10, 1, Side.buy⟩

/-- A sell-side price sample at day 0 (timestamp 0.2), price 20. -/
def demoSellRow : PriceRow := ⟨1, 2/10, 20, 1, Side.sell⟩

/-- A default `MarketAnalysis`, only used as the `Option.getD` fallback
when naming the value inside a known-`some` analysis result. -/
def emptyAnalysis : MarketAnalysis := ⟨[], 0, 0, [], "", "", 0, []⟩

/-- A stale `order_history` row: active, last seen at day 0. -/
def staleActiveRecord : OrderRecord :=
  ⟨1, "u1", "A", 10, 10, 1, Side.sell, 0, 0, OrderStatus.active, none, 0,
    ListingType.isNew⟩

/-- A fresh `order_history` row: active, last seen at day 95. -/
def freshActiveRecord : OrderRecord :=
  ⟨1, "u1", "B", 10, 10, 1, Side.sell, 90, 95, OrderStatus.active, none, 0,
    ListingType.isNew⟩

/-- Reading an element under a `List.map` with an in-range index. -/
lemma getD_map_lt {α β : Type} (f : α → β) (l : List α) (i : ℕ)
    (h : i < l.length) (d : β) (d' : α) :
    (l.map f).getD i d = f (l.getD i d') := by
  rw [List.getD_eq_getElem?_getD, List.getElem?_map, List.getElem?_eq_getElem h,
    List.getD_eq_getElem?_getD, List.getElem?_eq_getElem h]
  rfl

/-- C3: the stale-order sweep is idempotent, flips to `dead` exactly the
records that are `active` with `last_seen` older than 30 days (records
already `dead` stay `dead`), changes no other field of a swept record,
and leaves every non-matching record untouched. -/
theorem update_order_status_spec :
    (∀ (now : ℚ) (history : List OrderRecord),
        update_order_status now (update_order_status now history) =
          update_order_status now history) ∧
    (∀ (now : ℚ) (history : List OrderRecord) (i : ℕ) (d : OrderRecord),
        i < history.length →
        (((update_order_status now history).getD i d).status = OrderStatus.dead ↔
          ((history.getD i d).status = OrderStatus.dead ∨
            ((history.getD i d).status = OrderStatus.active ∧
              (history.getD i d).last_seen < now - 30)))) ∧
    (∀ (now : ℚ) (history : List OrderRecord) (i : ℕ) (d : OrderRecord),
        i < history.length →
        { (update_order_status now history).getD i d with
            status := (history.getD i d).status } = history.getD i d) ∧
    (∀ (now : ℚ) (history : List OrderRecord) (i : ℕ) (d : OrderRecord),
        i < history.length →
        ¬((history.getD i d).status = OrderStatus.active ∧
            (history.getD i d).last_seen < now - 30) →
        (update_order_status now history).getD i d = history.getD i d) := by
  refine ⟨?_, ?_, ?_, ?_⟩
  · intro now history
    simp only [update_order_status, List.map_map]
    apply List.map_congr_left
    intro r _
    by_cases hc : r.last_seen < now - 30 ∧ r.status = OrderStatus.active
    · simp only [Function.comp_apply, if_pos hc]
      rw [if_neg]
      simp
    · simp only [Function.comp_apply, if_neg hc]
  · intro now history i d hi
    rw [update_order_status, getD_map_lt _ _ _ hi _ d]
    by_cases hc : (history.getD i d).last_seen < now - 30 ∧
        (history.getD i d).status = OrderStatus.active
    · rw [if_pos hc]
      exact iff_of_true rfl (Or.inr ⟨hc.2, hc.1⟩)
    · rw [if_neg hc]
      constructor
      · intro h; exact Or.inl h
      · intro h
        rcases h with h | h
        · exact h
        · exact absurd ⟨h.2, h.1⟩ hc
  · intro now history i d hi
    rw [update_order_status, getD_map_lt _ _ _ hi _ d]
    by_cases hc : (history.getD i d).last_seen < now - 30 ∧
        (history.getD i d).status = OrderStatus.active
    · rw [if_pos hc]
    · rw [if_neg hc]
  · intro now history i d hi hns
    rw [update_order_status, getD_map_lt _ _ _ hi _ d, if_neg]
    intro h
    exact hns ⟨h.2, h.1⟩

/-- C3 witness: sweeping at day 100 kills the record last seen at day 0
and leaves the record last seen at day 95 untouched. -/
theorem update_order_status_spec_witness :
    (((update_order_status 100 [staleActiveRecord, freshActiveRecord]).getD 0
        staleActiveRecord).status = OrderStatus.dead ↔
      (staleActiveRecord.status = OrderStatus.dead ∨
        (staleActiveRecord.status = OrderStatus.active ∧
          staleActiveRecord.last_seen < 100 - 30))) ∧
    (update_order_status 100 [staleActiveRecord, freshActiveRecord]).getD 1
        staleActiveRecord = freshActiveRecord :=
  ⟨update_order_status_spec.2.1 100 [staleActiveRecord, freshActiveRecord] 0
      staleActiveRecord (by norm_num),
   (update_order_status_spec.2.2.2 100 [staleActiveRecord, freshActiveRecord] 1
      staleActiveRecord (by norm_num)
      (by norm_num [List.getD, freshActiveRecord])).trans
     (by norm_num [List.getD])⟩

/-- C5: the trimmed mean returns the plain mean for inputs with fewer
than 3 values (and whenever the truncating `trim_count` computation
yields 0, as for 6 values at 10%), so
`calculate_trimmed_mean [10,20,30,40,50,1000] 10` is the plain mean
1150/6 of all six values and `calculate_trimmed_mean [1,2,3] 10` is the
plain mean 2. -/
theorem calculate_trimmed_mean_spec :
    (∀ (values : List ℚ) (tp : ℚ), values.length < 3 →
        calculate_trimmed_mean values tp = values.sum / (values.length : ℚ)) ∧
    (∀ (values : List ℚ) (tp : ℚ), 3 ≤ values.length →
        pyInt ((values.length : ℚ) * tp / 100) ≤ 0 →
        calculate_trimmed_mean values tp = values.sum / (values.length : ℚ)) ∧
    calculate_trimmed_mean [10, 20, 30, 40, 50, 1000] 10 = 1150 / 6 ∧
    calculate_trimmed_mean [1, 2, 3] 10 = 2 := by
  refine ⟨?_, ?_, ?_, ?_⟩
  · intro values tp h
    rcases values with _ | ⟨a, l⟩
    · simp [calculate_trimmed_mean]
    · rw [calculate_trimmed_mean, if_neg (by simp), if_pos h]
  · intro values tp h3 hc
    have hne : values ≠ [] := by
      intro h; subst h; simp at h3
    have hlen : (values.insertionSort (fun a b => a ≤ b)).length = values.length :=
      List.length_insertionSort _ _
    have hsum : (values.insertionSort (fun a b => a ≤ b)).sum = values.sum :=
      (List.perm_insertionSort _ _).sum_eq
    have hsne : values.insertionSort (fun a b => a ≤ b) ≠ [] := by
      intro h
      rw [h] at hlen
      simp at hlen
      omega
    rw [calculate_trimmed_mean, if_neg hne, if_neg (by omega)]
    simp only []
    rw [if_neg (show ¬0 < pyInt (((values.length : ℕ) : ℚ) * tp / 100) by omega),
      if_neg hsne, hsum, hlen]
  · norm_num [calculate_trimmed_mean, pyInt, List.insertionSort, List.orderedInsert,
      List.cons_ne_nil]
  · norm_num [calculate_trimmed_mean, pyInt, List.insertionSort, List.orderedInsert,
      List.cons_ne_nil]

/-- C5 witness: the fewer-than-3 clause at `[5, 7]` and the
zero-trim-count clause at `[1, 2, 3, 4]` with 10%. -/
theorem calculate_trimmed_mean_spec_witness :
    calculate_trimmed_mean [5, 7] 10 = 6 ∧
    calculate_trimmed_mean [1, 2, 3, 4] 10 = 5 / 2 :=
  ⟨(calculate_trimmed_mean_spec.1 [5, 7] 10 (by norm_num)).trans (by norm_num),
   (calculate_trimmed_mean_spec.2.1 [1, 2, 3, 4] 10 (by norm_num)
      (by norm_num [pyInt])).trans (by norm_num)⟩

/-- Comparing a z-score against a threshold without leaving `ℚ`: for a
positive variance `v`, `t < |d| / √v` iff `t < 0` or `t² v < d²`. -/
theorem abs_div_sqrt_lt_iff (d v t : ℚ) (hv : 0 < v) :
    ((t : ℝ) < |(d : ℝ)| / Real.sqrt (v : ℝ)) ↔ (t < 0 ∨ t ^ 2 * v < d ^ 2) := by
  have hv' : (0:ℝ) < (v:ℝ) := by exact_mod_cast hv
  have hs : 0 < Real.sqrt (v:ℝ) := Real.sqrt_pos.mpr hv'
  rw [lt_div_iff₀ hs]
  rcases lt_or_le t 0 with ht | ht
  · have htr : (t:ℝ) < 0 := by exact_mod_cast ht
    simp only [ht, true_or, iff_true]
    exact lt_of_lt_of_le (mul_neg_of_neg_of_pos htr hs) (abs_nonneg _)
  · have htr : (0:ℝ) ≤ (t:ℝ) := by exact_mod_cast ht
    have h1 : (t:ℝ) * Real.sqrt (v:ℝ) < |(d:ℝ)| ↔
        ((t:ℝ) * Real.sqrt (v:ℝ)) ^ 2 < ((d:ℝ)) ^ 2 := by
      rw [← sq_abs (d:ℝ), sq_lt_sq, abs_of_nonneg (mul_nonneg htr hs.le), abs_abs]
    rw [h1, mul_pow, Real.sq_sqrt hv'.le, or_iff_right (not_lt.mpr ht)]
    constructor
    · intro h; exact_mod_cast h
    · intro h; exact_mod_cast h

/-- C4 (amended): `detect_outliers` flags exactly the values whose
z-score `(x - mean) / (population stdev)` exceeds the threshold in
absolute value; on `[10,10,10,10,100]` with threshold 2.0 the z-score of
100 is exactly 2.0, which is not strictly greater, so no value at all is
flagged. -/
theorem detect_outliers_spec :
    (∀ (prices : List ℚ) (t : ℚ) (i : ℕ), i < prices.length →
        0 < pvariance prices →
        ((detect_outliers prices t).getD i false = true ↔
          (t : ℝ) < |((prices.getD i 0 : ℚ) : ℝ) - ((listMean prices : ℚ) : ℝ)| /
            Real.sqrt ((pvariance prices : ℚ) : ℝ))) ∧
    detect_outliers [10, 10, 10, 10, 100] 2 = [false, false, false, false, false] := by
  constructor
  · intro prices t i hi hv
    have hne : prices ≠ [] := by intro h; subst h; simp at hi
    rw [detect_outliers, if_neg hne]
    simp only []
    rw [List.getD_eq_getElem?_getD, List.getElem?_map,
      List.getElem?_eq_getElem hi, List.getD_eq_getElem?_getD,
      List.getElem?_eq_getElem hi]
    simp only [Option.map_some', Option.getD_some]
    rw [decide_eq_true_eq, and_iff_right hv]
    have := abs_div_sqrt_lt_iff (prices[i] - listMean prices) (pvariance prices) t hv
    rw [← this]
    push_cast
    rfl
  · norm_num [detect_outliers, pvariance, listMean, List.cons_ne_nil]

/-- C4 witness: the z-score characterization applied to the element 100
(index 4) of `[10,10,10,10,100]` at threshold 2. -/
theorem detect_outliers_spec_witness :
    (detect_outliers [10, 10, 10, 10, 100] 2).getD 4 false = true ↔
      (2 : ℝ) < |((([10, 10, 10, 10, 100] : List ℚ).getD 4 0 : ℚ) : ℝ) -
        ((listMean [10, 10, 10, 10, 100] : ℚ) : ℝ)| /
        Real.sqrt ((pvariance [10, 10, 10, 10, 100] : ℚ) : ℝ) :=
  detect_outliers_spec.1 [10, 10, 10, 10, 100] 2 4 (by norm_num)
    (by norm_num [pvariance, listMean, List.cons_ne_nil])

/-- C4 counterexample: on `[10,10,10,10,100]` with threshold 2.0 the
code flags nothing — in particular not the claimed
`[false, false, false, false, true]` that would mark the value 100. -/
theorem detect_outliers_claim_counterexample :
    detect_outliers [10, 10, 10, 10, 100] 2 = [false, false, false, false, false] ∧
    detect_outliers [10, 10, 10, 10, 100] 2 ≠ [false, false, false, false, true] := by
  have h : detect_outliers [10, 10, 10, 10, 100] 2 =
      [false, false, false, false, false] := by
    norm_num [detect_outliers, pvariance, listMean, List.cons_ne_nil]
  exact ⟨h, by rw [h]; decide⟩

/-- C6 (amended): appending a price sample whose key already exists never
errors and never creates a second row, but only the inline insert of
`process_order` merges quantities (the existing row's quantity becomes
the sum); the standalone `insert_price` uses `ON CONFLICT DO NOTHING`,
so the existing row keeps its first quantity and the new quantity is
discarded. -/
theorem price_append_merge_spec :
    (∀ (item : ℕ) (ts p : ℚ) (q1 q2 : ℤ) (side : Side),
        process_order_insert_price
          (process_order_insert_price [] item ts p q1 side) item ts p q2 side =
          [⟨item, ts, p, q1 + q2, side⟩]) ∧
    (∀ (item : ℕ) (ts p : ℚ) (q1 q2 : ℤ) (side : Side),
        insert_price (insert_price [] item p q1 side ts) item p q2 side ts =
          [⟨item, ts, p, q1, side⟩]) := by
  constructor
  · intro item ts p q1 q2 side
    simp [process_order_insert_price, samePriceKey]
  · intro item ts p q1 q2 side
    simp [insert_price, samePriceKey]

/-- C6 counterexample: two `insert_price` calls with the identical key
`(item 1, price 10, sell, time 0)` and quantities 1 and 2 leave a single
row whose quantity is 1, not the claimed sum 3. -/
theorem insert_price_claim_counterexample :
    insert_price (insert_price [] 1 10 1 Side.sell 0) 1 10 2 Side.sell 0 =
      [⟨1, 0, 10, 1, Side.sell⟩] ∧
    insert_price (insert_price [] 1 10 1 Side.sell 0) 1 10 2 Side.sell 0 ≠
      [⟨1, 0, 10, 1 + 2, Side.sell⟩] := by
  constructor
  · simp [insert_price, samePriceKey]
  · simp [insert_price, samePriceKey]

/-- C1: `process_order` compares the incoming price against
`initial_price`, not against the stored `final_price`.  Ingesting order
A at prices 10, 20, 20 therefore yields `price_changes = 2` — the third
snapshot repeats the stored final price yet still increments — while
ingesting 10, 20, 10 yields `price_changes = 1` — the third snapshot
changes the stored final price yet does not increment. -/
theorem process_order_price_changes_bug :
    ((process_orders 1 [⟨"A", "u1", 10, 1, Side.sell, 5⟩,
        ⟨"A", "u1", 20, 1, Side.sell, 6⟩,
        ⟨"A", "u1", 20, 1, Side.sell, 7⟩]).1.map
      (fun r => (r.final_price, r.price_changes))) = [(20, 2)] ∧
    ((process_orders 1 [⟨"A", "u1", 10, 1, Side.sell, 5⟩,
        ⟨"A", "u1", 20, 1, Side.sell, 6⟩,
        ⟨"A", "u1", 10, 1, Side.sell, 7⟩]).1.map
      (fun r => (r.final_price, r.price_changes))) = [(10, 1)] := by
  constructor
  · norm_num [process_orders, process_orders_from, process_order,
      process_order_insert_price, samePriceKey, pyInt]
  · norm_num [process_orders, process_orders_from, process_order,
      process_order_insert_price, samePriceKey, pyInt]

/-- C2: the `listing_type` CASE of `process_order` tests whether the
incoming order's own `order_id` is already among the `(user, item)`
pair's order ids — impossible on the insert branch, which only runs when
that `order_id` is absent from the whole table — so a second distinct
order "B" from the same owner "u1" and item is still stored as `new`,
never `relist`. -/
theorem process_order_listing_type_bug :
    ((process_orders 1 [⟨"A", "u1", 10, 1, Side.sell, 5⟩,
        ⟨"B", "u1", 12, 1, Side.sell, 6⟩]).1.map
      (fun r => (r.order_id, r.listing_type))) =
      [("A", ListingType.isNew), ("B", ListingType.isNew)] := by
  norm_num [process_orders, process_orders_from, process_order,
    process_order_insert_price, samePriceKey, pyInt]
  simp

/-- When every attempt draws HTTP 429, `make_request_from` ends in the
rate-limit error after sleeping `delay * (retries + 1)` before each of
its `remaining` recursive retries. -/
lemma make_request_from_tooMany (responses : ℕ → HttpResponse) (d : ℚ)
    (h : ∀ n, responses n = HttpResponse.tooManyRequests) :
    ∀ (remaining retries : ℕ),
      make_request_from responses d remaining retries =
        ⟨RequestOutcome.rateLimitExceeded,
          (List.range remaining).map (fun k => d * (((retries + k + 1 : ℕ)) : ℚ)),
          remaining + 1⟩ := by
  intro remaining
  induction remaining with
  | zero =>
    intro retries
    rw [make_request_from, h retries]
    simp
  | succ n ih =>
    intro retries
    rw [make_request_from, h retries]
    simp only []
    rw [ih (retries + 1)]
    simp only [List.range_succ_eq_map, List.map_cons, List.map_map, RequestTrace.mk.injEq,
      true_and, and_true]
    congr 1
    · push_cast
      ring
    · apply List.map_congr_left
      intro k _
      simp only [Function.comp_apply]
      push_cast
      ring

/-- C8: when the server answers HTTP 429 on every attempt,
`make_request` sleeps `retry_delay * (attempt + 1)` before the
(attempt+1)-th retry, performs exactly `max_retries` retries after the
initial request (`max_retries + 1` requests in total), and then fails
with the rate-limit-exceeded error instead of retrying forever. -/
theorem make_request_rate_limit_spec (responses : ℕ → HttpResponse)
    (max_retries : ℕ) (d : ℚ)
    (h : ∀ n, responses n = HttpResponse.tooManyRequests) :
    (make_request responses max_retries d).outcome =
        RequestOutcome.rateLimitExceeded ∧
    (make_request responses max_retries d).sleeps =
      (List.range max_retries).map (fun k => d * (((k + 1 : ℕ)) : ℚ)) ∧
    (make_request responses max_retries d).attempts = max_retries + 1 := by
  rw [make_request, make_request_from_tooMany responses d h max_retries 0]
  refine ⟨rfl, ?_, rfl⟩
  simp

/-- C8 witness: at the client defaults (`max_retries = 3`,
`retry_delay = 1.0`) an all-429 server yields the rate-limit error after
sleeps of 1, 2 and 3 seconds and 4 requests in total. -/
theorem make_request_rate_limit_spec_witness :
    make_request (fun _ => HttpResponse.tooManyRequests) 3 1 =
      ⟨RequestOutcome.rateLimitExceeded, [1, 2, 3], 4⟩ := by
  obtain ⟨h1, h2, h3⟩ := make_request_rate_limit_spec
    (fun _ => HttpResponse.tooManyRequests) 3 1 (fun _ => rfl)
  calc make_request (fun _ => HttpResponse.tooManyRequests) 3 1 =
      ⟨(make_request (fun _ => HttpResponse.tooManyRequests) 3 1).outcome,
        (make_request (fun _ => HttpResponse.tooManyRequests) 3 1).sleeps,
        (make_request (fun _ => HttpResponse.tooManyRequests) 3 1).attempts⟩ := rfl
    _ = ⟨RequestOutcome.rateLimitExceeded, [1, 2, 3], 4⟩ := by
        rw [h1, h2, h3]
        norm_num [List.range_succ]

/-- A sorted list is empty exactly when its input is. -/
lemma windowRecords_eq_nil_iff (rows : List PriceRow) (item_id : ℕ) (start : ℚ) :
    windowRecords rows item_id start = [] ↔
      rows.filter (fun r => decide (r.item_id = item_id ∧ start ≤ r.recorded_at)) = [] := by
  rw [windowRecords]
  constructor
  · intro h
    have hp := List.perm_insertionSort (fun a b : PriceRow => a.recorded_at ≤ b.recorded_at)
      (rows.filter (fun r => decide (r.item_id = item_id ∧ start ≤ r.recorded_at)))
    rw [h] at hp
    exact hp.symm.eq_nil
  · intro h
    rw [h]
    rfl

/-- C7: the analysis returns the distinguished `none` exactly when the
item has zero price samples inside the lookback window — never an error
and never an empty-but-present `MarketAnalysis`. -/
theorem analyze_market_data_none_iff (rows : List PriceRow) (item_id : ℕ)
    (start : ℚ) :
    analyze_market_data rows item_id start = none ↔
      rows.filter (fun r => decide (r.item_id = item_id ∧ start ≤ r.recorded_at)) = [] := by
  rw [analyze_market_data]
  by_cases h : windowRecords rows item_id start = []
  · rw [if_pos h]
    exact iff_of_true rfl ((windowRecords_eq_nil_iff rows item_id start).mp h)
  · rw [if_neg h]
    exact iff_of_false (by simp)
      (fun hf => h ((windowRecords_eq_nil_iff rows item_id start).mpr hf))

/-- The `price_trends` of a successful analysis are exactly the per-day
trends over the window's records. -/
lemma analyze_price_trends_eq (rows : List PriceRow) (item_id : ℕ) (start : ℚ)
    (a : MarketAnalysis) (ha : analyze_market_data rows item_id start = some a) :
    a.price_trends = analysisTrends (windowRecords rows item_id start) := by
  rw [analyze_market_data] at ha
  by_cases h : windowRecords rows item_id start = []
  · rw [if_pos h] at ha
    exact absurd ha (by simp)
  · rw [if_neg h] at ha
    have := Option.some.inj ha
    rw [← this]

/-- C9 (amended): each per-day `MarketTrend` of an analysis carries as
volatility the *sample* standard deviation (divisor `n - 1`, the
behaviour of `statistics.stdev`) of the union of that day's buy and sell
prices — stated on the stored square — and 0 when the day has fewer than
2 samples. -/
theorem analyze_trend_volatility_spec (rows : List PriceRow) (item_id : ℕ)
    (start : ℚ) (a : MarketAnalysis)
    (ha : analyze_market_data rows item_id start = some a)
    (t : MarketTrend) (ht : t ∈ a.price_trends) :
    t.volatilitySq =
      if 1 < (dayAllPrices (windowRecords rows item_id start) t.timestamp).length
      then svariance (dayAllPrices (windowRecords rows item_id start) t.timestamp)
      else 0 := by
  rw [analyze_price_trends_eq rows item_id start a ha, analysisTrends,
    List.mem_filterMap] at ht
  obtain ⟨d, _, hf⟩ := ht
  by_cases hd : dayAllPrices (windowRecords rows item_id start) d = []
  · rw [if_pos hd] at hf
    exact absurd hf (by simp)
  · rw [if_neg hd] at hf
    have := Option.some.inj hf
    rw [← this]
    rfl

/-- Constructor disequality used to evaluate side filters. -/
lemma side_sell_ne_buy : ¬ Side.sell = Side.buy := by
  intro h
  cases h

/-- The demo window keeps both demo rows, already time-ordered. -/
lemma demo_windowRecords :
    windowRecords [demoBuyRow, demoSellRow] 1 0 = [demoBuyRow, demoSellRow] := by
  norm_num [windowRecords, List.insertionSort, List.orderedInsert, demoBuyRow, demoSellRow,
    List.filter_cons, List.filter_nil]

/-- The demo window yields exactly one per-day trend, for day 0. -/
lemma demo_analysisTrends :
    analysisTrends [demoBuyRow, demoSellRow] =
      [mkMarketTrend [demoBuyRow, demoSellRow] 0] := by
  norm_num [analysisTrends, analysisDays, rowDate, List.insertionSort, List.orderedInsert,
    demoBuyRow, demoSellRow, dayAllPrices, dayBuyPrices, daySellPrices,
    List.filter_cons, List.filter_nil, List.filterMap_cons, List.filterMap_nil,
    side_sell_ne_buy]

/-- The demo analysis succeeds, and its value can be named via `getD`. -/
lemma demo_analyze_eq :
    analyze_market_data [demoBuyRow, demoSellRow] 1 0 =
      some ((analyze_market_data [demoBuyRow, demoSellRow] 1 0).getD emptyAnalysis) := by
  have hne : windowRecords [demoBuyRow, demoSellRow] 1 0 ≠ [] := by
    rw [demo_windowRecords]
    simp
  rw [analyze_market_data, if_neg hne]
  rfl

/-- C9 witness: the volatility characterization applied to the single
trend of the demo window (one buy at 10 and one sell at 20 on day 0). -/
theorem analyze_trend_volatility_spec_witness :
    (mkMarketTrend (windowRecords [demoBuyRow, demoSellRow] 1 0) 0).volatilitySq =
      if 1 < (dayAllPrices (windowRecords [demoBuyRow, demoSellRow] 1 0)
          ((mkMarketTrend (windowRecords [demoBuyRow, demoSellRow] 1 0) 0).timestamp)).length
      then svariance (dayAllPrices (windowRecords [demoBuyRow, demoSellRow] 1 0)
          ((mkMarketTrend (windowRecords [demoBuyRow, demoSellRow] 1 0) 0).timestamp))
      else 0 := by
  refine analyze_trend_volatility_spec [demoBuyRow, demoSellRow] 1 0 _ demo_analyze_eq
    (mkMarketTrend (windowRecords [demoBuyRow, demoSellRow] 1 0) 0) ?_
  rw [analyze_price_trends_eq _ _ _ _ demo_analyze_eq, demo_windowRecords,
    demo_analysisTrends]
  simp

/-- C9 counterexample: on a day holding exactly the prices 10 and 20 the
stored volatility squared is 50 (sample variance), while the population
variance of those prices is 25; the corresponding standard deviations
√50 and √25 differ, so the volatility is not the population stdev. -/
theorem analyze_volatility_claim_counterexample :
    (analyze_market_data [demoBuyRow, demoSellRow] 1 0).map
        (fun a => a.price_trends.map (fun t => t.volatilitySq)) = some [50] ∧
    dayAllPrices (windowRecords [demoBuyRow, demoSellRow] 1 0) 0 = [10, 20] ∧
    pvariance [10, 20] = 25 ∧
    Real.sqrt 50 ≠ Real.sqrt 25 := by
  refine ⟨?_, ?_, ?_, ?_⟩
  · have hne : windowRecords [demoBuyRow, demoSellRow] 1 0 ≠ [] := by
      rw [demo_windowRecords]
      simp
    rw [analyze_market_data, if_neg hne]
    show some ((analysisTrends (windowRecords [demoBuyRow, demoSellRow] 1 0)).map
        (fun t => t.volatilitySq)) = some [50]
    rw [demo_windowRecords, demo_analysisTrends]
    norm_num [mkMarketTrend, dayAllPrices, dayBuyPrices, daySellPrices, rowDate,
      demoBuyRow, demoSellRow, svariance, listMean, List.filter_cons, List.filter_nil,
      side_sell_ne_buy]
  · rw [demo_windowRecords]
    norm_num [dayAllPrices, dayBuyPrices, daySellPrices, rowDate, demoBuyRow, demoSellRow,
      List.filter_cons, List.filter_nil, side_sell_ne_buy]
  · norm_num [pvariance, listMean]
  · intro h
    have h2 := congrArg (fun x => x ^ 2) h
    simp only [] at h2
    rw [Real.sq_sqrt (by norm_num : (0:ℝ) ≤ 50), Real.sq_sqrt (by norm_num : (0:ℝ) ≤ 25)] at h2
    norm_num at h2

lemma bucketQty_nil (p : ℤ) : bucketQty [] p = 0 := rfl

lemma bucketQty_cons (e : ℤ × ℤ) (m : List (ℤ × ℤ)) (p : ℤ) :
    bucketQty (e :: m) p = (if e.1 = p then e.2 else 0) + bucketQty m p := by
  rw [bucketQty, List.filter_cons]
  by_cases h : e.1 = p
  · simp [h, bucketQty]
  · simp [h, bucketQty]

lemma bucketQty_append (m₁ m₂ : List (ℤ × ℤ)) (p : ℤ) :
    bucketQty (m₁ ++ m₂) p = bucketQty m₁ p + bucketQty m₂ p := by
  rw [bucketQty, List.filter_append, List.map_append, List.sum_append]
  rfl

lemma bucketQty_not_mem (m : List (ℤ × ℤ)) (p : ℤ)
    (h : p ∉ m.map Prod.fst) : bucketQty m p = 0 := by
  induction m with
  | nil => rfl
  | cons e m ih =>
    rw [bucketQty_cons]
    simp only [List.map_cons, List.mem_cons] at h
    push_neg at h
    rw [if_neg (fun he => h.1 he.symm), ih h.2]
    ring


lemma bucketQty_of_mem (m : List (ℤ × ℤ)) (p q : ℤ)
    (h : (m.map Prod.fst).Nodup) (hm : (p, q) ∈ m) : bucketQty m p = q := by
  induction m with
  | nil => cases hm
  | cons e m ih =>
    rw [List.map_cons, List.nodup_cons] at h
    rw [bucketQty_cons]
    rcases List.mem_cons.mp hm with he | hm'
    · subst he
      rw [if_pos rfl, bucketQty_not_mem m p h.1]
      ring
    · have hep : e.1 ≠ p := by
        intro hc
        exact h.1 (hc ▸ List.mem_map_of_mem Prod.fst hm')
      rw [if_neg hep, ih h.2 hm']
      ring

lemma addToBucket_keys (m : List (ℤ × ℤ)) (p q : ℤ) :
    (addToBucket m p q).map Prod.fst =
      if m.any (fun e => e.1 == p) then m.map Prod.fst
      else m.map Prod.fst ++ [p] := by
  rw [addToBucket]
  by_cases h : m.any (fun e => e.1 == p)
  · rw [if_pos h, if_pos h, List.map_map]
    apply List.map_congr_left
    intro e _
    simp only [Function.comp_apply]
    split
    · rfl
    · rfl
  · rw [if_neg h, if_neg h, List.map_append]
    rfl

lemma addToBucket_nodup (m : List (ℤ × ℤ)) (p q : ℤ)
    (h : (m.map Prod.fst).Nodup) : ((addToBucket m p q).map Prod.fst).Nodup := by
  rw [addToBucket_keys]
  by_cases hany : m.any (fun e => e.1 == p)
  · rw [if_pos hany]
    exact h
  · rw [if_neg hany]
    rw [List.nodup_append]
    refine ⟨h, List.nodup_singleton p, ?_⟩
    intro x hx
    simp only [List.mem_singleton]
    intro hxp
    subst hxp
    obtain ⟨e, hem, hfst⟩ := List.mem_map.mp hx
    rw [Bool.not_eq_true, List.any_eq_false] at hany
    have h2 := hany e hem
    simp only [beq_iff_eq] at h2
    exact h2 hfst


lemma mapAdd_bucketQty (p q p' : ℤ) :
    ∀ (m : List (ℤ × ℤ)), (m.map Prod.fst).Nodup →
      bucketQty (m.map (fun e => if e.1 == p then (e.1, e.2 + q) else e)) p' =
        bucketQty m p' + (if p' = p ∧ p ∈ m.map Prod.fst then q else 0) := by
  intro m
  induction m with
  | nil =>
    intro _
    simp [bucketQty_nil]
  | cons e m ih =>
    intro h
    rw [List.map_cons, List.nodup_cons] at h
    rw [List.map_cons, bucketQty_cons, bucketQty_cons, ih h.2, List.map_cons]
    simp only [beq_iff_eq, List.mem_cons]
    by_cases hep : e.1 = p
    · have hpm : p ∉ m.map Prod.fst := hep ▸ h.1
      rw [if_pos hep]
      by_cases hp' : p' = p
      · have he' : e.1 = p' := hep.trans hp'.symm
        rw [if_pos (show (e.1, e.2 + q).1 = p' from he'), if_pos he',
          if_neg (show ¬(p' = p ∧ p ∈ m.map Prod.fst) from fun hc => hpm hc.2),
          if_pos (show p' = p ∧ (p = e.1 ∨ p ∈ m.map Prod.fst) from
            ⟨hp', Or.inl hep.symm⟩)]
        ring
      · rw [if_neg (show ¬(e.1, e.2 + q).1 = p' from
            fun hc => hp' (hc.symm.trans hep)),
          if_neg (show ¬e.1 = p' from fun hc => hp' (hc.symm.trans hep)),
          if_neg (show ¬(p' = p ∧ p ∈ m.map Prod.fst) from fun hc => hp' hc.1),
          if_neg (show ¬(p' = p ∧ (p = e.1 ∨ p ∈ m.map Prod.fst)) from
            fun hc => hp' hc.1)]
        ring
    · rw [if_neg hep]
      by_cases hp' : p' = p
      · by_cases hm : p ∈ m.map Prod.fst
        · rw [if_pos (show p' = p ∧ p ∈ m.map Prod.fst from ⟨hp', hm⟩),
            if_pos (show p' = p ∧ (p = e.1 ∨ p ∈ m.map Prod.fst) from
              ⟨hp', Or.inr hm⟩)]
          ring
        · rw [if_neg (show ¬(p' = p ∧ p ∈ m.map Prod.fst) from fun hc => hm hc.2),
            if_neg (show ¬(p' = p ∧ (p = e.1 ∨ p ∈ m.map Prod.fst)) from ?_)]
          · ring
          · intro hc
            rcases hc.2 with h1 | h1
            · exact hep h1.symm
            · exact hm h1
      · rw [if_neg (show ¬(p' = p ∧ p ∈ m.map Prod.fst) from fun hc => hp' hc.1),
          if_neg (show ¬(p' = p ∧ (p = e.1 ∨ p ∈ m.map Prod.fst)) from
            fun hc => hp' hc.1)]
        ring


lemma addToBucket_bucketQty (m : List (ℤ × ℤ)) (p q p' : ℤ)
    (h : (m.map Prod.fst).Nodup) :
    bucketQty (addToBucket m p q) p' =
      bucketQty m p' + (if p' = p then q else 0) := by
  rw [addToBucket]
  by_cases hany : m.any (fun e => e.1 == p)
  · rw [if_pos hany, mapAdd_bucketQty p q p' m h]
    have hpm : p ∈ m.map Prod.fst := by
      rw [List.any_eq_true] at hany
      obtain ⟨e, hem, he⟩ := hany
      rw [beq_iff_eq] at he
      exact he ▸ List.mem_map_of_mem Prod.fst hem
    by_cases hp' : p' = p
    · rw [if_pos ⟨hp', hpm⟩, if_pos hp']
    · rw [if_neg (fun hc => hp' hc.1), if_neg hp']
  · rw [if_neg hany, bucketQty_append]
    congr 1
    rw [bucketQty_cons, bucketQty_nil]
    by_cases hp' : p' = p
    · rw [if_pos (show (p, q).1 = p' from hp'.symm), if_pos hp']
      simp
    · rw [if_neg (show ¬(p, q).1 = p' from fun hc => hp' hc.symm), if_neg hp']
      simp

lemma sumAdds_cons (o : AddOp) (ops : List AddOp) (ty : Side) (p : ℤ) :
    sumAdds (o :: ops) ty p =
      (if o.order_type = ty ∧ o.price = p then o.quantity else 0) +
        sumAdds ops ty p := by
  rw [sumAdds, List.filter_cons]
  by_cases hc : o.order_type = ty ∧ o.price = p
  · rw [if_pos (by simpa using hc), if_pos hc]
    rw [List.map_cons, List.sum_cons]
    rfl
  · rw [if_neg (by simpa using hc), if_neg hc]
    rw [sumAdds]
    ring

lemma applyOrders_bucketQty (ops : List AddOp) :
    ∀ (c : OrderCollection),
      (c.buy.map Prod.fst).Nodup → (c.sell.map Prod.fst).Nodup →
      (((applyOrders ops c).buy.map Prod.fst).Nodup ∧
       ((applyOrders ops c).sell.map Prod.fst).Nodup) ∧
      (∀ (ty : Side) (p : ℤ),
        bucketQty (sideBucket (applyOrders ops c) ty) p =
          bucketQty (sideBucket c ty) p + sumAdds ops ty p) := by
  induction ops with
  | nil =>
    intro c hb hs
    refine ⟨⟨hb, hs⟩, ?_⟩
    intro ty p
    rw [show applyOrders [] c = c from rfl]
    rw [show sumAdds [] ty p = 0 from rfl]
    ring
  | cons o ops ih =>
    intro c hb hs
    have hstep : applyOrders (o :: ops) c =
        applyOrders ops (c.add_order o.price o.quantity o.order_type) := rfl
    have hb' : ((c.add_order o.price o.quantity o.order_type).buy.map Prod.fst).Nodup := by
      cases hty : o.order_type
      · exact addToBucket_nodup c.buy o.price o.quantity hb
      · exact hb
    have hs' : ((c.add_order o.price o.quantity o.order_type).sell.map Prod.fst).Nodup := by
      cases hty : o.order_type
      · exact hs
      · exact addToBucket_nodup c.sell o.price o.quantity hs
    obtain ⟨hnd, hq⟩ := ih (c.add_order o.price o.quantity o.order_type) hb' hs'
    rw [hstep]
    refine ⟨hnd, ?_⟩
    intro ty p
    rw [hq ty p, sumAdds_cons]
    suffices hsb : bucketQty (sideBucket (c.add_order o.price o.quantity o.order_type) ty) p =
        bucketQty (sideBucket c ty) p +
          (if o.order_type = ty ∧ o.price = p then o.quantity else 0) by
      rw [hsb]
      ring
    cases hty : o.order_type <;> cases ty
    · rw [show sideBucket (c.add_order o.price o.quantity Side.buy) Side.buy =
          addToBucket c.buy o.price o.quantity from rfl,
        addToBucket_bucketQty c.buy o.price o.quantity p hb]
      by_cases hp : p = o.price
      · rw [if_pos hp, if_pos ⟨rfl, hp.symm⟩]
        simp [sideBucket]
      · rw [if_neg hp, if_neg (fun hc => hp hc.2.symm)]
        simp [sideBucket]
    · rw [show sideBucket (c.add_order o.price o.quantity Side.buy) Side.sell =
          c.sell from rfl,
        if_neg (fun hc => by cases hc.1)]
      simp [sideBucket]
    · rw [show sideBucket (c.add_order o.price o.quantity Side.sell) Side.buy =
          c.buy from rfl,
        if_neg (fun hc => by cases hc.1)]
      simp [sideBucket]
    · rw [show sideBucket (c.add_order o.price o.quantity Side.sell) Side.sell =
          addToBucket c.sell o.price o.quantity from rfl,
        addToBucket_bucketQty c.sell o.price o.quantity p hs]
      by_cases hp : p = o.price
      · rw [if_pos hp, if_pos ⟨rfl, hp.symm⟩]
        simp [sideBucket]
      · rw [if_neg hp, if_neg (fun hc => hp hc.2.symm)]
        simp [sideBucket]


/-- C10: replaying any sequence of `add_order` calls on a fresh
`OrderCollection`, `get_all_orders` returns at most one entry per
`(order_type, price)` key, every returned entry carries the sum of all
quantities added for its key, and no entry with quantity ≤ 0 is ever
returned — the zero-quantity placeholders that defaultdict lookups
create are filtered out. -/
theorem get_all_orders_spec (ops : List AddOp) :
    (∀ e ∈ (applyOrders ops OrderCollection.empty).get_all_orders,
        0 < e.quantity ∧ e.quantity = sumAdds ops e.order_type e.price) ∧
    (((applyOrders ops OrderCollection.empty).get_all_orders.map
        (fun e => (e.order_type, e.price))).Nodup) := by
  obtain ⟨⟨hbn, hsn⟩, hq⟩ := applyOrders_bucketQty ops OrderCollection.empty
    (by simp [OrderCollection.empty]) (by simp [OrderCollection.empty])
  have hqb : ∀ p, bucketQty (applyOrders ops OrderCollection.empty).buy p =
      sumAdds ops Side.buy p := by
    intro p
    have := hq Side.buy p
    rw [show sideBucket (applyOrders ops OrderCollection.empty) Side.buy =
        (applyOrders ops OrderCollection.empty).buy from rfl,
      show bucketQty (sideBucket OrderCollection.empty Side.buy) p = 0 from rfl] at this
    rw [this]
    ring
  have hqs : ∀ p, bucketQty (applyOrders ops OrderCollection.empty).sell p =
      sumAdds ops Side.sell p := by
    intro p
    have := hq Side.sell p
    rw [show sideBucket (applyOrders ops OrderCollection.empty) Side.sell =
        (applyOrders ops OrderCollection.empty).sell from rfl,
      show bucketQty (sideBucket OrderCollection.empty Side.sell) p = 0 from rfl] at this
    rw [this]
    ring
  constructor
  · intro e he
    rw [OrderCollection.get_all_orders, List.mem_append] at he
    rcases he with he | he
    · obtain ⟨pr, hpr, hepr⟩ := List.mem_map.mp he
      rw [List.mem_filter] at hpr
      have hq0 : (0:ℤ) < pr.2 := by simpa using hpr.2
      have hmem : (pr.1, pr.2) ∈ (applyOrders ops OrderCollection.empty).buy := hpr.1
      have hbq := bucketQty_of_mem _ pr.1 pr.2 hbn hmem
      rw [← hepr]
      exact ⟨hq0, by rw [show (⟨pr.1, pr.2, Side.buy⟩ : OrderEntry).quantity = pr.2 from rfl,
        show (⟨pr.1, pr.2, Side.buy⟩ : OrderEntry).order_type = Side.buy from rfl,
        show (⟨pr.1, pr.2, Side.buy⟩ : OrderEntry).price = pr.1 from rfl,
        ← hqb pr.1, hbq]⟩
    · obtain ⟨pr, hpr, hepr⟩ := List.mem_map.mp he
      rw [List.mem_filter] at hpr
      have hq0 : (0:ℤ) < pr.2 := by simpa using hpr.2
      have hmem : (pr.1, pr.2) ∈ (applyOrders ops OrderCollection.empty).sell := hpr.1
      have hbq := bucketQty_of_mem _ pr.1 pr.2 hsn hmem
      rw [← hepr]
      exact ⟨hq0, by rw [show (⟨pr.1, pr.2, Side.sell⟩ : OrderEntry).quantity = pr.2 from rfl,
        show (⟨pr.1, pr.2, Side.sell⟩ : OrderEntry).order_type = Side.sell from rfl,
        show (⟨pr.1, pr.2, Side.sell⟩ : OrderEntry).price = pr.1 from rfl,
        ← hqs pr.1, hbq]⟩
  · rw [OrderCollection.get_all_orders, List.map_append, List.map_map, List.map_map]
    rw [List.nodup_append]
    have hbkeys : ((((applyOrders ops OrderCollection.empty).buy.filter
        (fun e => 0 < e.2)).map Prod.fst)).Nodup :=
      hbn.sublist (List.Sublist.map Prod.fst (List.filter_sublist _))
    have hskeys : ((((applyOrders ops OrderCollection.empty).sell.filter
        (fun e => 0 < e.2)).map Prod.fst)).Nodup :=
      hsn.sublist (List.Sublist.map Prod.fst (List.filter_sublist _))
    refine ⟨?_, ?_, ?_⟩
    · rw [show ((fun e : OrderEntry => (e.order_type, e.price)) ∘
          (fun e : ℤ × ℤ => (⟨e.1, e.2, Side.buy⟩ : OrderEntry))) =
          ((fun k : ℤ => (Side.buy, k)) ∘ Prod.fst) from rfl, ← List.map_map]
      exact hbkeys.map (fun a b hab => (Prod.mk.injEq _ _ _ _).mp hab |>.2)
    · rw [show ((fun e : OrderEntry => (e.order_type, e.price)) ∘
          (fun e : ℤ × ℤ => (⟨e.1, e.2, Side.sell⟩ : OrderEntry))) =
          ((fun k : ℤ => (Side.sell, k)) ∘ Prod.fst) from rfl, ← List.map_map]
      exact hskeys.map (fun a b hab => (Prod.mk.injEq _ _ _ _).mp hab |>.2)
    · intro x hx hy
      obtain ⟨pb, _, hpb⟩ := List.mem_map.mp hx
      obtain ⟨ps, _, hps⟩ := List.mem_map.mp hy
      rw [← hpb] at hps
      cases (Prod.mk.injEq _ _ _ _).mp hps |>.1


/-- C10 witness: adding quantities 2 and 3 at buy price 10 and 4 at
sell price 5 yields a buy entry of quantity 5 = 2 + 3. -/
theorem get_all_orders_spec_witness :
    0 < (⟨10, 5, Side.buy⟩ : OrderEntry).quantity ∧
    (⟨10, 5, Side.buy⟩ : OrderEntry).quantity =
      sumAdds [⟨10, 2, Side.buy⟩, ⟨10, 3, Side.buy⟩, ⟨5, 4, Side.sell⟩]
        (⟨10, 5, Side.buy⟩ : OrderEntry).order_type
        (⟨10, 5, Side.buy⟩ : OrderEntry).price :=
  (get_all_orders_spec [⟨10, 2, Side.buy⟩, ⟨10, 3, Side.buy⟩, ⟨5, 4, Side.sell⟩]).1
    ⟨10, 5, Side.buy⟩ (by decide)

end WarframeMarketer
